import Mathlib

/-!
Verification of the `withResolvers` broadcast-future primitive and the
Result/ResultLike helper functions of this repository.

The broadcaster (`withResolvers` in the untitled source file) is embedded as an
explicit state machine: the closure-captured mutable variables `settlement` and
`subscribers` become the fields of `WR.BState`, each invocation of the returned
`operation` becomes a `wait` step that appends a fresh waiter (the source
allocates a fresh `{resolve, reject}` resolver object per invocation, so waiter
identities are the positions in the log of invocations), cancellation of a
suspended waiter becomes a `cancel` step (the source's `finally` block deletes
the resolver from the subscriber set when the suspension is torn down), and the
producer-side `resolve`/`reject` become `settle` steps.
-/

namespace WR

/-- A JavaScript `Error` value, reduced to its message. -/
structure Error where
  message : String
deriving DecidableEq, Repr

/-- The effection `Result<T>` value held in `settlement` and passed to `notify`.
`Ok value` is the success arm, `Err error` the failure arm carrying its payload.
`ErrNoPayload` is a failure-arm value whose `error` field is absent at runtime:
the source's `notify` defends against it with an `"error" in result` check. -/
inductive Result (T : Type) where
  | Ok (value : T)
  | Err (error : Error)
  | ErrNoPayload
deriving DecidableEq, Repr

/-- What a waiter's continuation pair observes: `notify` either calls
`resolver.resolve(value)` (here `success value`) or `resolver.reject(e)`
(here `failure e`). -/
inductive Outcome (T : Type) where
  | success (value : T)
  | failure (e : Error)
deriving DecidableEq, Repr

/-- The source's `notify(result, resolver)`: on `result.ok` call
`resolver.resolve(result.value)`; otherwise call `resolver.reject` with
`result.error` when the field is present, and with `new Error("unknown error")`
when it is absent. -/
def notify {T : Type} (result : Result T) : Outcome T :=
  match result with
  | .Ok value => .success value
  | .Err error => .failure error
  | .ErrNoPayload => .failure ⟨"unknown error"⟩

/-- The status of one invocation of the waiter operation: suspended and
registered (`pending`), resumed by a `notify` call (`resumed`), or torn down by
cancellation before settlement (`cancelled`). -/
inductive WStatus (T : Type) where
  | pending
  | resumed (o : Outcome T)
  | cancelled
deriving DecidableEq, Repr

/-- The state owned by one `withResolvers()` call: the `subscribers` set (kept
as the list of registered waiter ids), the write-once `settlement`, and the log
of all waiter invocations so far (`waiters`, indexed by waiter id). -/
structure BState (T : Type) where
  subscribers : List Nat
  settlement : Option (Result T)
  waiters : List (WStatus T)
deriving DecidableEq, Repr

/-- The fresh state produced by `withResolvers()`: empty subscriber set, no
settlement, no waiter invocations yet. -/
def withResolvers (T : Type) : BState T :=
  { subscribers := [], settlement := none, waiters := [] }

/-- One invocation of the `operation` returned by `withResolvers`: if
`settlement` is set, `notify(settlement, resolver)` runs at once and the caller
never suspends; otherwise the fresh resolver is added to `subscribers` and the
invocation suspends (`pending`). The fresh waiter's id is the next log index. -/
def wait {T : Type} (s : BState T) : BState T :=
  match s.settlement with
  | some r => { s with waiters := s.waiters ++ [.resumed (notify r)] }
  | none =>
      { s with
        subscribers := s.subscribers ++ [s.waiters.length],
        waiters := s.waiters ++ [.pending] }

/-- Whether a waiter-log entry records a currently-suspended waiter. -/
def isPending {T : Type} : Option (WStatus T) → Bool
  | some .pending => true
  | _ => false

/-- Cancellation of a suspended waiter: the `finally` block runs
`subscribers.delete(resolver)` and the invocation ends without a value. Only a
currently-suspended (`pending`) waiter can be cancelled; cancelling anything
else is a no-op. -/
def cancel {T : Type} (s : BState T) (id : Nat) : BState T :=
  if isPending (s.waiters.get? id) then
    { s with
      subscribers := s.subscribers.erase id,
      waiters := s.waiters.set id .cancelled }
  else s

/-- The effect of the source's notification loop
`for (const subscriber of subscribers) { subscribers.delete(subscriber); notify(settlement, subscriber); }`
on the waiter log: every registered waiter is resumed with `notify result`;
the iteration order of the set does not matter because each delete-and-notify
acts on a distinct waiter. `i` is the log index of the head of `ws`. -/
def resumeFrom {T : Type} (subs : List Nat) (o : Outcome T) : Nat → List (WStatus T) → List (WStatus T)
  | _, [] => []
  | i, st :: rest =>
      (if i ∈ subs then .resumed o else st) :: resumeFrom subs o (i + 1) rest

/-- The source's `settle(result)`. On the first call `settlement` is still
unset: it is assigned, the `settle` variable is replaced by a no-op closure,
and the loop drains `subscribers`, notifying each registered waiter with the
(just-assigned) settlement. Every later `resolve`/`reject` call reaches the
no-op closure, so the whole state is unchanged. Settlement assignment and the
closure swap happen together under the same `if (!settlement)` guard, so
`settlement.isSome` exactly captures "`settle` has been replaced". -/
def settle {T : Type} (s : BState T) (result : Result T) : BState T :=
  match s.settlement with
  | some _ => s
  | none =>
      { subscribers := [],
        settlement := some result,
        waiters := resumeFrom s.subscribers (notify result) 0 s.waiters }

/-- The producer-side `resolve(value)`: `settle(Ok(value))`. -/
def resolve {T : Type} (s : BState T) (value : T) : BState T :=
  settle s (.Ok value)

/-- The producer-side `reject(error)`: `settle(Err(error))`. -/
def reject {T : Type} (s : BState T) (error : Error) : BState T :=
  settle s (.Err error)

/-- The externally observable events on one broadcaster: a consumer invokes the
operation, a suspended consumer is cancelled, or the producer calls
`resolve`/`reject`. -/
inductive Event (T : Type) where
  | wait
  | cancel (id : Nat)
  | resolve (value : T)
  | reject (error : Error)
deriving DecidableEq, Repr

/-- The `Result` a settling event records, `none` for non-settling events. -/
def settles {T : Type} : Event T → Option (Result T)
  | .resolve value => some (.Ok value)
  | .reject error => some (.Err error)
  | _ => none

/-- Interpretation of one event on the broadcaster state. -/
def step {T : Type} (s : BState T) : Event T → BState T
  | .wait => wait s
  | .cancel id => cancel s id
  | .resolve value => resolve s value
  | .reject error => reject s error

/-- The state after running a sequence of events on a fresh broadcaster. -/
def run {T : Type} (es : List (Event T)) : BState T :=
  es.foldl step (withResolvers T)

/-- The status of waiter `id` in state `s` (none if no such invocation). -/
def statusOf {T : Type} (s : BState T) (id : Nat) : Option (WStatus T) :=
  s.waiters.get? id

/-- The well-formedness invariant of every reachable broadcaster state:
the subscriber set has no duplicates; it contains exactly the pending waiters;
once settled with `r`, every resumed waiter observed `notify r`; before
settlement no waiter has been resumed; and after settlement the subscriber set
is empty. -/
def Inv {T : Type} (s : BState T) : Prop :=
  s.subscribers.Nodup ∧
  (∀ id, id ∈ s.subscribers ↔ s.waiters.get? id = some .pending) ∧
  (∀ r, s.settlement = some r → ∀ o, WStatus.resumed o ∈ s.waiters → o = notify r) ∧
  (s.settlement = none → ∀ o, WStatus.resumed o ∉ s.waiters) ∧
  (s.settlement.isSome → s.subscribers = [])

end WR

namespace Basic

/-!
Embedding of `src/utils/basic.ts`. `Result<T>` and `ResultLike<T>` are the
discriminated unions of that file; as in the broadcaster embedding, the failure
arm may lack its payload field at runtime (`ResultLikeToResult` defends against
that with an `"error" in result` check), so the runtime value types carry an
extra constructor for the missing-field case.
-/

/-- The runtime `ResultLike<T>` value: success with a value, failure with a
string message, or a failure object whose `error` field is absent. -/
inductive ResultLike (T : Type) where
  | Ok (value : T)
  | Err (error : String)
  | ErrNoField
deriving DecidableEq, Repr

/-- The source's `ResultLikeToResult`: success maps to `Ok(result.value)`;
failure maps to `Err(new Error(result.error))` when the `error` field is
present and to `Err(new Error("unknown error"))` when it is absent. -/
def ResultLikeToResult {T : Type} (result : ResultLike T) : WR.Result T :=
  match result with
  | .Ok value => .Ok value
  | .Err error => .Err ⟨error⟩
  | .ErrNoField => .Err ⟨"unknown error"⟩

/-- A `Result<T>` object as a record of its `ok`/`value`/`error` fields, the
shape `toFxResult` spreads and `toResult` rebuilds. A well-formed success has
`ok = true`, `value = some v`, `error = none`; a failure `ok = false`,
`error = some e`. The round-trip theorems hold for every field assignment. -/
structure ResultObj (T : Type) where
  ok : Bool
  value : Option T
  error : Option WR.Error
deriving DecidableEq, Repr

/-- The source's `isOk`: `result.ok === true`. -/
def isOk {T : Type} (result : ResultObj T) : Bool :=
  result.ok == true

/-- The source's `isErr`: `result.ok === false`. -/
def isErr {T : Type} (result : ResultObj T) : Bool :=
  result.ok == false

/-- The pattern record passed to `cata`: an `Ok` continuation and an `Err`
continuation. Operations are modelled by their produced value. -/
structure CataPatterns (T U : Type) where
  Ok : ResultObj T → U
  Err : ResultObj T → U

/-- The body of the `cataFunction` generator built by `toFxResult`: dispatch on
`isOk result` to the matching pattern, forwarding the result object itself. -/
def cataFunction {T U : Type} (result : ResultObj T) (patterns : CataPatterns T U) : U :=
  if isOk result then patterns.Ok result else patterns.Err result

/-- The enhanced `FxResult<T>`: the `Result` fields plus the `cata` field. -/
structure FxResult (T : Type) : Type 1 where
  ok : Bool
  value : Option T
  error : Option WR.Error
  cata : {U : Type} → CataPatterns T U → U

/-- The source's `toFxResult`: spread the result's fields and add `cata`. -/
def toFxResult {T : Type} (result : ResultObj T) : FxResult T :=
  { ok := result.ok, value := result.value, error := result.error,
    cata := fun patterns => cataFunction result patterns }

/-- The source's `toResult`: destructure `cata` away and keep the rest. -/
def toResult {T : Type} (result : FxResult T) : ResultObj T :=
  { ok := result.ok, value := result.value, error := result.error }

/-!
Dynamic JavaScript values, for the functions whose behaviour depends on host
semantics: `typeof`, property access (which throws a `TypeError` on `null` and
`undefined`), and the `in` operator (which throws on any non-object operand).
Numeric payloads are kept as their source lexeme; no claim inspects them.
-/

/-- A JavaScript runtime value. -/
inductive JSVal where
  | null
  | undefined
  | bool (b : Bool)
  | num (lit : String)
  | str (s : String)
  | obj (fields : List (String × JSVal))
  | arr (elems : List JSVal)

/-- JavaScript `typeof`: note `typeof null === "object"`. -/
def jsTypeof : JSVal → String
  | .null => "object"
  | .undefined => "undefined"
  | .bool _ => "boolean"
  | .num _ => "number"
  | .str _ => "string"
  | .obj _ => "object"
  | .arr _ => "object"

/-- Whether a value is the JavaScript `null`. -/
def jsIsNull : JSVal → Bool
  | .null => true
  | _ => false

/-- Property access `v.k`: throws a `TypeError` on `null`/`undefined`; on any
other primitive the value is boxed and the access yields `undefined`; on an
object it yields the field or `undefined`. Array index/length properties are
irrelevant to every claim and yield `undefined`. -/
def getProp (v : JSVal) (k : String) : Except String JSVal :=
  match v with
  | .null => .error "TypeError"
  | .undefined => .error "TypeError"
  | .obj fields => .ok (((fields.lookup k).getD .undefined))
  | _ => .ok .undefined

/-- The `in` operator `k in v`: throws a `TypeError` unless `v` is an object. -/
def hasProp (v : JSVal) (k : String) : Except String Bool :=
  match v with
  | .obj fields => .ok (fields.any (fun f => f.1 == k))
  | .arr _ => .ok false
  | _ => .error "TypeError"

/-- Strict equality of a value with a boolean literal, `v === b`. -/
def jsEqBool (v : JSVal) (b : Bool) : Bool :=
  match v with
  | .bool b2 => b == b2
  | _ => false

/-- The source's `isResultDelphi`, with JavaScript evaluation order:
`(typeof arg === "object" && arg !== null && "ok" in arg && arg.ok === true && "value" in arg) || (arg.ok === false && "error" in arg)`.
The second disjunct reads `arg.ok` without a null check, so the function
throws on `null` and `undefined`. -/
def isResultDelphi (arg : JSVal) : Except String Bool := do
  let first ←
    if jsTypeof arg == "object" then
      if !(jsIsNull arg) then do
        let hOk ← hasProp arg "ok"
        if hOk then do
          let okv ← getProp arg "ok"
          if jsEqBool okv true then hasProp arg "value"
          else pure false
        else pure false
      else pure false
    else pure false
  if first then pure true
  else do
    let okv ← getProp arg "ok"
    if jsEqBool okv false then hasProp arg "error"
    else pure false

/-- The source's `isResultLikeOk`: `isResultDelphi(arg) && arg.ok === true`. -/
def isResultLikeOk (arg : JSVal) : Except String Bool := do
  let d ← isResultDelphi arg
  if d then do
    let okv ← getProp arg "ok"
    pure (jsEqBool okv true)
  else pure false

/-- The source's `isResultLikeErr`:
`isResultDelphi(arg) && arg.ok === false && "error" in arg`. -/
def isResultLikeErr (arg : JSVal) : Except String Bool := do
  let d ← isResultDelphi arg
  if d then do
    let okv ← getProp arg "ok"
    if jsEqBool okv false then hasProp arg "error"
    else pure false
  else pure false

/-!
A model of `JSON.parse`, needed by `isJSONString`. The grammar covered is
objects, arrays, string literals with the single-character escapes, numbers,
`true`/`false`/`null`, and whitespace; `\uXXXX` string escapes are left out
(no claim depends on them). The parser is fuel-indexed; `jsonParse` supplies
ample fuel for its input.
-/

/-- Skip JSON whitespace. -/
def skipWs : List Char → List Char
  | c :: rest =>
      if c == ' ' || c == '\t' || c == '\n' || c == '\r' then skipWs rest
      else c :: rest
  | [] => []

/-- Parse the remainder of a JSON string literal, after its opening quote. -/
def parseStringLit : List Char → Option (String × List Char)
  | [] => none
  | c :: rest =>
      if c == '"' then some ("", rest)
      else if c == '\\' then
        match rest with
        | [] => none
        | e :: rest2 =>
            let esc : Option Char :=
              if e == '"' then some '"'
              else if e == '\\' then some '\\'
              else if e == '/' then some '/'
              else if e == 'n' then some '\n'
              else if e == 't' then some '\t'
              else if e == 'r' then some '\r'
              else if e == 'b' then some (Char.ofNat 8)
              else if e == 'f' then some (Char.ofNat 12)
              else none
            match esc with
            | none => none
            | some ch =>
                match parseStringLit rest2 with
                | none => none
                | some (s, rest3) => some (String.mk (ch :: s.data), rest3)
      else
        match parseStringLit rest with
        | none => none
        | some (s, rest2) => some (String.mk (c :: s.data), rest2)

/-- Split off the longest digit prefix. -/
def takeDigits : List Char → (List Char × List Char)
  | [] => ([], [])
  | c :: rest =>
      if c.isDigit then
        let (ds, r) := takeDigits rest
        (c :: ds, r)
      else ([], c :: rest)

/-- The integer part of a JSON number: `0`, or a nonzero digit then digits
(JSON rejects redundant leading zeros). -/
def parseIntPart : List Char → Option (List Char × List Char)
  | [] => none
  | c :: rest =>
      if c == '0' then
        match rest with
        | d :: _ => if d.isDigit then none else some ([c], rest)
        | [] => some ([c], [])
      else if c.isDigit then
        let (ds, r) := takeDigits rest
        some (c :: ds, r)
      else none

/-- The optional fraction part; a dot must be followed by at least a digit. -/
def parseFrac : List Char → Option (List Char × List Char)
  | '.' :: r =>
      let (ds, r2) := takeDigits r
      if ds.isEmpty then none else some ('.' :: ds, r2)
  | cs => some ([], cs)

/-- The optional exponent part. -/
def parseExp : List Char → Option (List Char × List Char)
  | c :: r =>
      if c == 'e' || c == 'E' then
        let (sgn, r1) :=
          match r with
          | s :: rr => if s == '+' || s == '-' then (([s] : List Char), rr) else ([], r)
          | [] => (([] : List Char), [])
        let (ds, r2) := takeDigits r1
        if ds.isEmpty then none else some (c :: (sgn ++ ds), r2)
      else some ([], c :: r)
  | [] => some ([], [])

/-- A JSON number literal, returned as its lexeme. -/
def parseNumberLit (cs : List Char) : Option (String × List Char) := do
  let (sign, cs1) :=
    match cs with
    | c :: rest => if c == '-' then (([c] : List Char), rest) else ([], cs)
    | [] => (([] : List Char), ([] : List Char))
  let (ip, cs2) ← parseIntPart cs1
  let (fp, cs3) ← parseFrac cs2
  let (ep, cs4) ← parseExp cs3
  pure (String.mk (sign ++ ip ++ fp ++ ep), cs4)

mutual

/-- A JSON value (fuel-indexed recursive descent). -/
def parseValueF : Nat → List Char → Option (JSVal × List Char)
  | 0, _ => none
  | fuel + 1, cs =>
      match skipWs cs with
      | 'n' :: 'u' :: 'l' :: 'l' :: rest => some (.null, rest)
      | 't' :: 'r' :: 'u' :: 'e' :: rest => some (.bool true, rest)
      | 'f' :: 'a' :: 'l' :: 's' :: 'e' :: rest => some (.bool false, rest)
      | '"' :: rest => do
          let (s, r) ← parseStringLit rest
          pure (.str s, r)
      | '[' :: rest =>
          (match skipWs rest with
           | ']' :: r => some (.arr [], r)
           | rest2 => do
               let (es, r) ← parseElemsF fuel rest2
               pure (.arr es, r))
      | '\x7b' :: rest =>
          (match skipWs rest with
           | '\x7d' :: r => some (.obj [], r)
           | rest2 => do
               let (ms, r) ← parseMembersF fuel rest2
               pure (.obj ms, r))
      | cs2 => do
          let (lit, r) ← parseNumberLit cs2
          pure (.num lit, r)

/-- One or more comma-separated array elements, then `]`. -/
def parseElemsF : Nat → List Char → Option (List JSVal × List Char)
  | 0, _ => none
  | fuel + 1, cs => do
      let (v, r) ← parseValueF fuel cs
      match skipWs r with
      | ',' :: r2 => do
          let (vs, r3) ← parseElemsF fuel r2
          pure (v :: vs, r3)
      | ']' :: r2 => pure ([v], r2)
      | _ => none

/-- One or more `"key": value` members, then the closing brace. -/
def parseMembersF : Nat → List Char → Option (List (String × JSVal) × List Char)
  | 0, _ => none
  | fuel + 1, cs =>
      match skipWs cs with
      | '"' :: rest => do
          let (k, r) ← parseStringLit rest
          match skipWs r with
          | ':' :: r2 => do
              let (v, r3) ← parseValueF fuel r2
              match skipWs r3 with
              | ',' :: r4 => do
                  let (ms, r5) ← parseMembersF fuel r4
                  pure ((k, v) :: ms, r5)
              | '\x7d' :: r4 => pure ([(k, v)], r4)
              | _ => none
          | _ => none
      | _ => none

end

/-- `JSON.parse(s)`: parse one value, allow trailing whitespace, and throw a
`SyntaxError` (here `.error`) on any other leftover input or parse failure. -/
def jsonParse (s : String) : Except String JSVal :=
  match parseValueF (2 * s.length + 2) s.data with
  | some (v, rest) =>
      if (skipWs rest).isEmpty then .ok v else .error "SyntaxError"
  | none => .error "SyntaxError"

/-- The source's `isJSONString`: parse the string; on success return
`typeof obj === "object" && obj !== null`, and on a parse throw return
`false`. -/
def isJSONString (str : String) : Bool :=
  match jsonParse str with
  | .ok obj => jsTypeof obj == "object" && !(jsIsNull obj)
  | .error _ => false

end Basic

namespace WR

/-! Helper lemmas about lists and the broadcaster transition functions. -/

theorem get?_snoc {α : Type} (l : List α) (a : α) (i : Nat) :
    (l ++ [a]).get? i =
      if i < l.length then l.get? i
      else if i = l.length then some a else none := by
  rcases Nat.lt_trichotomy i l.length with h | h | h
  · rw [List.get?_append h]
    simp [h]
  · subst h
    rw [List.get?_concat_length]
    simp
  · have h1 : ¬ i < l.length := by omega
    have h2 : i ≠ l.length := by omega
    have h3 : (l ++ [a]).length ≤ i := by simp; omega
    rw [List.get?_eq_none.2 h3]
    simp [h1, h2]

theorem mem_set_elim {α : Type} (x a : α) :
    ∀ (l : List α) (j : Nat), x ∈ l.set j a → x = a ∨ x ∈ l
  | [], j, hx => by simp [List.set] at hx
  | y :: ys, 0, hx => by
      simp [List.set] at hx
      rcases hx with h | h
      · exact Or.inl h
      · exact Or.inr (List.mem_cons_of_mem _ h)
  | y :: ys, j + 1, hx => by
      simp [List.set] at hx
      rcases hx with h | h
      · exact Or.inr (by simp [h])
      · rcases mem_set_elim x a ys j h with h2 | h2
        · exact Or.inl h2
        · exact Or.inr (by simp [h2])

theorem isPending_iff {T : Type} (o : Option (WStatus T)) :
    isPending o = true ↔ o = some WStatus.pending := by
  cases o with
  | none => simp [isPending]
  | some st => cases st <;> simp [isPending]

theorem resumeFrom_get? {T : Type} (subs : List Nat) (o : Outcome T) :
    ∀ (ws : List (WStatus T)) (i k : Nat),
      (resumeFrom subs o i ws).get? k
        = (ws.get? k).map (fun st => if i + k ∈ subs then WStatus.resumed o else st)
  | [], i, k => by simp [resumeFrom]
  | st :: rest, i, 0 => by simp [resumeFrom]
  | st :: rest, i, k + 1 => by
      have ih := resumeFrom_get? subs o rest (i + 1) k
      simp only [resumeFrom, List.get?]
      rw [ih]
      simp only [show i + 1 + k = i + (k + 1) by omega]

theorem mem_resumeFrom {T : Type} (subs : List Nat) (o : Outcome T) :
    ∀ (ws : List (WStatus T)) (i : Nat) (x : WStatus T),
      x ∈ resumeFrom subs o i ws → x = WStatus.resumed o ∨ x ∈ ws
  | [], i, x => by simp [resumeFrom]
  | st :: rest, i, x => by
      intro hx
      simp only [resumeFrom, List.mem_cons] at hx
      rcases hx with hx | hx
      · by_cases hi : i ∈ subs
        · simp [hi] at hx
          exact Or.inl hx
        · simp [hi] at hx
          exact Or.inr (by simp [hx])
      · rcases mem_resumeFrom subs o rest (i + 1) x hx with h | h
        · exact Or.inl h
        · exact Or.inr (by simp [h])

theorem settle_of_some {T : Type} (s : BState T) (r0 r : Result T)
    (h : s.settlement = some r0) : settle s r = s := by
  unfold settle
  rw [h]

theorem settle_of_none {T : Type} (s : BState T) (r : Result T)
    (h : s.settlement = none) :
    settle s r =
      { subscribers := [], settlement := some r,
        waiters := resumeFrom s.subscribers (notify r) 0 s.waiters } := by
  unfold settle
  rw [h]

theorem settle_get?_of_not_sub {T : Type} (s : BState T) (r : Result T) (id : Nat)
    (h : id ∉ s.subscribers) :
    (settle s r).waiters.get? id = s.waiters.get? id := by
  cases hs : s.settlement with
  | some r0 => rw [settle_of_some s r0 r hs]
  | none =>
      rw [settle_of_none s r hs]
      show (resumeFrom s.subscribers (notify r) 0 s.waiters).get? id = _
      rw [resumeFrom_get?]
      cases s.waiters.get? id with
      | none => rfl
      | some st => simp [h]

/-! The invariant holds initially and is preserved by every step. -/

theorem inv_withResolvers (T : Type) : Inv (withResolvers T) := by
  refine ⟨List.nodup_nil, ?_, ?_, ?_, ?_⟩ <;> simp [withResolvers]

theorem inv_wait {T : Type} (s : BState T) (h : Inv s) : Inv (wait s) := by
  obtain ⟨hnd, hsub, hres, hnone, hsett⟩ := h
  cases hs : s.settlement with
  | some r =>
      have hse : s.subscribers = [] := hsett (by simp [hs])
      have hw : wait s = { s with waiters := s.waiters ++ [.resumed (notify r)] } := by
        unfold wait
        rw [hs]
      rw [hw]
      refine ⟨hnd, ?_, ?_, ?_, ?_⟩ <;> dsimp only
      · intro id
        rw [hse, get?_snoc]
        simp only [List.not_mem_nil, false_iff]
        split_ifs with h1 h2
        · intro hp
          have := (hsub id).mpr hp
          rw [hse] at this
          simp at this
        · simp
        · simp
      · intro r2 hr2 o ho
        rw [hs] at hr2
        injection hr2 with h2
        subst h2
        rcases List.mem_append.mp ho with h1 | h1
        · exact hres _ hs o h1
        · simp at h1
          exact h1
      · intro hn
        rw [hs] at hn
        cases hn
      · intro _
        exact hse
  | none =>
      have hw : wait s =
          { s with subscribers := s.subscribers ++ [s.waiters.length],
                   waiters := s.waiters ++ [.pending] } := by
        unfold wait
        rw [hs]
      rw [hw]
      have hfresh : s.waiters.length ∉ s.subscribers := by
        intro hin
        have hp := (hsub _).mp hin
        have := (List.get?_eq_some.mp hp).1
        omega
      refine ⟨?_, ?_, ?_, ?_, ?_⟩ <;> dsimp only
      · rw [List.nodup_append]
        exact ⟨hnd, List.nodup_singleton _, by
          intro a ha hb
          simp at hb
          subst hb
          exact hfresh ha⟩
      · intro id
        rw [get?_snoc]
        constructor
        · intro hin
          rcases List.mem_append.mp hin with h1 | h1
          · have hp := (hsub id).mp h1
            have hlt := (List.get?_eq_some.mp hp).1
            rw [if_pos hlt]
            exact hp
          · simp at h1
            subst h1
            simp
        · intro hp
          split_ifs at hp with h1 h2
          · exact List.mem_append.mpr (Or.inl ((hsub id).mpr hp))
          · subst h2
            simp
      · intro r2 hr2
        rw [hs] at hr2
        cases hr2
      · intro _ o ho
        rcases List.mem_append.mp ho with h1 | h1
        · exact hnone hs o h1
        · simp at h1
      · intro hiss
        rw [hs] at hiss
        cases hiss

theorem inv_cancel {T : Type} (s : BState T) (id : Nat) (h : Inv s) : Inv (cancel s id) := by
  obtain ⟨hnd, hsub, hres, hnone, hsett⟩ := h
  unfold cancel
  split_ifs with hp
  case neg => exact ⟨hnd, hsub, hres, hnone, hsett⟩
  case pos =>
    have hget : s.waiters.get? id = some .pending := (isPending_iff _).mp hp
    refine ⟨hnd.erase id, ?_, ?_, ?_, ?_⟩ <;> dsimp only
    · intro j
      by_cases hj : j = id
      · subst hj
        rw [hnd.mem_erase_iff]
        simp only [ne_eq, not_true_eq_false, false_and, false_iff]
        rw [List.get?_set_eq, hget]
        simp
      · rw [List.mem_erase_of_ne hj, List.get?_set_ne _ _ (fun h2 => hj h2.symm)]
        exact hsub j
    · intro r2 hr2 o ho
      rcases mem_set_elim _ _ _ _ ho with h1 | h1
      · cases h1
      · exact hres r2 hr2 o h1
    · intro hn o ho
      rcases mem_set_elim _ _ _ _ ho with h1 | h1
      · cases h1
      · exact hnone hn o h1
    · intro hiss
      rw [hsett hiss]
      rfl

theorem inv_settle {T : Type} (s : BState T) (r : Result T) (h : Inv s) : Inv (settle s r) := by
  obtain ⟨hnd, hsub, hres, hnone, hsett⟩ := h
  cases hs : s.settlement with
  | some r0 =>
      rw [settle_of_some s r0 r hs]
      exact ⟨hnd, hsub, hres, hnone, hsett⟩
  | none =>
      rw [settle_of_none s r hs]
      refine ⟨List.nodup_nil, ?_, ?_, ?_, ?_⟩ <;> dsimp only
      · intro id
        simp only [List.not_mem_nil, false_iff]
        rw [resumeFrom_get?]
        cases hg : s.waiters.get? id with
        | none => simp
        | some st =>
            by_cases hid : id ∈ s.subscribers
            · simp [hid]
            · simp [hid]
              intro hst
              subst hst
              exact hid ((hsub id).mpr hg)
      · intro r2 hr2 o ho
        have hr2' : r2 = r := by
          injection hr2 with h2
          exact h2.symm
        subst hr2'
        rcases mem_resumeFrom _ _ _ _ _ ho with h1 | h1
        · exact WStatus.resumed.inj h1
        · exact absurd h1 (hnone hs o)
      · intro hn
        cases hn
      · intro _
        rfl

theorem inv_step {T : Type} (s : BState T) (e : Event T) (h : Inv s) : Inv (step s e) := by
  cases e with
  | wait => exact inv_wait s h
  | cancel id => exact inv_cancel s id h
  | resolve v => exact inv_settle s _ h
  | reject err => exact inv_settle s _ h

theorem foldl_preserve {T : Type} (P : BState T → Prop)
    (hP : ∀ s e, Inv s → P s → P (step s e)) :
    ∀ (es : List (Event T)) (s : BState T), Inv s → P s → P (es.foldl step s)
  | [], _, _, hp => hp
  | e :: es, s, hi, hp => foldl_preserve P hP es (step s e) (inv_step s e hi) (hP s e hi hp)

theorem inv_run {T : Type} (es : List (Event T)) : Inv (run es) :=
  foldl_preserve Inv (fun s e hi _ => inv_step s e hi) es (withResolvers T)
    (inv_withResolvers T) (inv_withResolvers T)

theorem run_append {T : Type} (es more : List (Event T)) :
    run (es ++ more) = more.foldl step (run es) := by
  simp [run, List.foldl_append]

/-! Stability: the settlement and the terminal waiter statuses never change. -/

theorem wait_of_some {T : Type} (s : BState T) (r : Result T) (h : s.settlement = some r) :
    wait s = { s with waiters := s.waiters ++ [.resumed (notify r)] } := by
  unfold wait
  rw [h]

theorem wait_of_none {T : Type} (s : BState T) (h : s.settlement = none) :
    wait s =
      { s with subscribers := s.subscribers ++ [s.waiters.length],
               waiters := s.waiters ++ [.pending] } := by
  unfold wait
  rw [h]

theorem wait_settlement {T : Type} (s : BState T) : (wait s).settlement = s.settlement := by
  cases hs : s.settlement with
  | some r => rw [wait_of_some s r hs, hs]
  | none => rw [wait_of_none s hs, hs]

theorem cancel_settlement {T : Type} (s : BState T) (id : Nat) :
    (cancel s id).settlement = s.settlement := by
  unfold cancel
  split_ifs <;> rfl

theorem cancel_of_pending {T : Type} (s : BState T) (id : Nat)
    (h : s.waiters.get? id = some .pending) :
    cancel s id =
      { s with subscribers := s.subscribers.erase id,
               waiters := s.waiters.set id .cancelled } := by
  have hp : isPending (s.waiters.get? id) = true := (isPending_iff _).mpr h
  unfold cancel
  exact if_pos hp

theorem step_settlement_some {T : Type} (s : BState T) (e : Event T) (r : Result T)
    (h : s.settlement = some r) : (step s e).settlement = some r := by
  cases e with
  | wait =>
      show (wait s).settlement = some r
      rw [wait_settlement]
      exact h
  | cancel id =>
      show (cancel s id).settlement = some r
      rw [cancel_settlement]
      exact h
  | resolve v =>
      show (settle s _).settlement = some r
      rw [settle_of_some s r _ h]
      exact h
  | reject err =>
      show (settle s _).settlement = some r
      rw [settle_of_some s r _ h]
      exact h

theorem step_status_stable {T : Type} (s : BState T) (e : Event T) (id : Nat) (st : WStatus T)
    (hi : Inv s) (hst : st ≠ WStatus.pending) (h : s.waiters.get? id = some st) :
    (step s e).waiters.get? id = some st := by
  obtain ⟨hnd, hsub, hres, hnone, hsett⟩ := hi
  have hnotin : id ∉ s.subscribers := by
    intro hin
    have hp := (hsub id).mp hin
    rw [h] at hp
    exact hst (Option.some.inj hp)
  have hlt : id < s.waiters.length := (List.get?_eq_some.mp h).1
  cases e with
  | wait =>
      show (wait s).waiters.get? id = some st
      cases hs : s.settlement with
      | some r =>
          rw [wait_of_some s r hs]
          dsimp only
          rw [get?_snoc, if_pos hlt]
          exact h
      | none =>
          rw [wait_of_none s hs]
          dsimp only
          rw [get?_snoc, if_pos hlt]
          exact h
  | cancel j =>
      show (cancel s j).waiters.get? id = some st
      unfold cancel
      split_ifs with hp
      · dsimp only
        have hj : s.waiters.get? j = some .pending := (isPending_iff _).mp hp
        have hne : j ≠ id := by
          intro he
          rw [he, h] at hj
          exact hst (Option.some.inj hj)
        rw [List.get?_set_ne _ _ hne]
        exact h
      · exact h
  | resolve v =>
      show (settle s _).waiters.get? id = some st
      rw [settle_get?_of_not_sub s _ id hnotin]
      exact h
  | reject err =>
      show (settle s _).waiters.get? id = some st
      rw [settle_get?_of_not_sub s _ id hnotin]
      exact h

theorem settle_isSome {T : Type} (s : BState T) (r : Result T) :
    (settle s r).settlement.isSome = true := by
  cases hs : s.settlement with
  | some r0 =>
      rw [settle_of_some s r0 r hs, hs]
      rfl
  | none =>
      rw [settle_of_none s r hs]
      rfl

theorem settle_subscribers {T : Type} (s : BState T) (r : Result T) (hi : Inv s) :
    (settle s r).subscribers = [] := by
  cases hs : s.settlement with
  | some r0 =>
      rw [settle_of_some s r0 r hs]
      exact hi.2.2.2.2 (by rw [hs]; rfl)
  | none =>
      rw [settle_of_none s r hs]

end WR

open WR Basic

/-- C1: Single settlement, first writer wins. A settling resolve/reject call on
an unsettled broadcaster records exactly its own outcome; once the settlement
is non-empty it survives every further event sequence unchanged; every waiter
(past or future) that is resumed observes `notify` of that first settlement;
and once settled, every subsequent resolve or reject call leaves the entire
state untouched — in particular resolve after a prior reject leaves the
settlement as the original rejection, and vice versa. -/
theorem first_writer_wins {T : Type} (es more : List (Event T)) (r : Result T) (e : Event T) :
    ((run es).settlement = none → settles e = some r →
      (run (es ++ [e])).settlement = some r) ∧
    ((run es).settlement = some r →
      (run (es ++ more)).settlement = some r ∧
      (∀ id o, statusOf (run (es ++ more)) id = some (.resumed o) → o = notify r) ∧
      (∀ (e2 : Event T) (r2 : Result T), settles e2 = some r2 →
        step (run (es ++ more)) e2 = run (es ++ more))) := by
  constructor
  · intro hn hse
    have hstep : run (es ++ [e]) = settle (run es) r := by
      rw [run_append]
      cases e with
      | wait => simp [settles] at hse
      | cancel j => simp [settles] at hse
      | resolve v =>
          simp [settles] at hse
          subst hse
          rfl
      | reject err =>
          simp [settles] at hse
          subst hse
          rfl
    rw [hstep, settle_of_none _ _ hn]
  · intro h
    have hset : (run (es ++ more)).settlement = some r := by
      rw [run_append]
      exact foldl_preserve (fun s => s.settlement = some r)
        (fun s e2 _ hp => step_settlement_some s e2 r hp) more (run es) (inv_run es) h
    refine ⟨hset, ?_, ?_⟩
    · intro id o ho
      exact (inv_run (es ++ more)).2.2.1 r hset o (List.get?_mem ho)
    · intro e2 r2 hse2
      cases e2 with
      | wait => simp [settles] at hse2
      | cancel j => simp [settles] at hse2
      | resolve v => exact settle_of_some _ r _ hset
      | reject err => exact settle_of_some _ r _ hset

/- Witness for C1: on a fresh broadcaster, `reject` records the rejection, and
a following `resolve` leaves the settlement as the original rejection. -/
theorem first_writer_wins_witness :
    (run (([] : List (Event Nat)) ++ [Event.reject ⟨"boom"⟩])).settlement
      = some (Result.Err ⟨"boom"⟩) ∧
    (run (([Event.reject ⟨"boom"⟩] : List (Event Nat)) ++ [Event.resolve 5])).settlement
      = some (Result.Err ⟨"boom"⟩) :=
  ⟨(first_writer_wins [] [] (Result.Err ⟨"boom"⟩) (Event.reject ⟨"boom"⟩)).1
      (by decide) (by decide),
   ((first_writer_wins [Event.reject ⟨"boom"⟩] [Event.resolve 5] (Result.Err ⟨"boom"⟩)
      Event.wait).2 (by decide)).1⟩

/-- C2: No lost wakeup. A waiter that is pending (hence registered) when a
settling resolve/reject call happens is notified by exactly that call — it is
resumed with `notify` of the call's result — and the call drains the whole
registry, removing every waiter from it. -/
theorem no_lost_wakeup {T : Type} (es : List (Event T)) (e : Event T) (id : Nat) (r : Result T)
    (hse : settles e = some r)
    (hid : statusOf (run es) id = some .pending) :
    statusOf (run (es ++ [e])) id = some (.resumed (notify r)) ∧
    (run (es ++ [e])).subscribers = [] := by
  obtain ⟨hnd, hsub, hres, hnone, hsett⟩ := inv_run es
  have hid' : (run es).waiters.get? id = some WStatus.pending := hid
  have hin : id ∈ (run es).subscribers := (hsub id).mpr hid'
  have hnone' : (run es).settlement = none := by
    cases hs : (run es).settlement with
    | none => rfl
    | some r0 =>
        have he := hsett (by rw [hs]; rfl)
        rw [he] at hin
        cases hin
  have hstep : run (es ++ [e]) = settle (run es) r := by
    rw [run_append]
    cases e with
    | wait => simp [settles] at hse
    | cancel j => simp [settles] at hse
    | resolve v =>
        simp [settles] at hse
        subst hse
        rfl
    | reject err =>
        simp [settles] at hse
        subst hse
        rfl
  rw [hstep, settle_of_none _ _ hnone']
  constructor
  · show (resumeFrom (run es).subscribers (notify r) 0 (run es).waiters).get? id = _
    rw [resumeFrom_get?, hid']
    simp [hin]
  · rfl

/- Witness for C2: the sole pending waiter is resumed by `resolve 7`. -/
theorem no_lost_wakeup_witness :
    statusOf (run (([Event.wait] : List (Event Nat)) ++ [Event.resolve 7])) 0
      = some (.resumed (.success 7)) ∧
    (run (([Event.wait] : List (Event Nat)) ++ [Event.resolve 7])).subscribers = [] :=
  no_lost_wakeup [Event.wait] (Event.resolve 7) 0 (Result.Ok 7) (by decide) (by decide)

/-- C3: Late subscriber equivalence. On an already-settled broadcaster, a new
invocation of the waiter operation is immediately resumed with `notify` of the
settlement — the same outcome every earlier resumed waiter observed — and the
subscriber registry is untouched: the waiter never registers and never
suspends. -/
theorem late_subscriber_equivalence {T : Type} (es : List (Event T)) (r : Result T)
    (h : (run es).settlement = some r) :
    (run (es ++ [Event.wait])).waiters = (run es).waiters ++ [.resumed (notify r)] ∧
    (run (es ++ [Event.wait])).subscribers = (run es).subscribers ∧
    (∀ o, WStatus.resumed o ∈ (run es).waiters → o = notify r) := by
  have h1 : run (es ++ [Event.wait]) = wait (run es) := by
    rw [run_append]
    rfl
  rw [h1, wait_of_some _ r h]
  exact ⟨rfl, rfl, (inv_run es).2.2.1 r h⟩

/- Witness for C3: a waiter arriving after `resolve 1` observes `Success 1`
immediately, just as the earlier waiter did. -/
theorem late_subscriber_equivalence_witness :
    (run (([Event.wait, Event.resolve 1] : List (Event Nat)) ++ [Event.wait])).waiters
      = (run ([Event.wait, Event.resolve 1] : List (Event Nat))).waiters
          ++ [.resumed (.success 1)] :=
  (late_subscriber_equivalence [Event.wait, Event.resolve 1] (Result.Ok 1) (by decide)).1

/-- C4: Cancellation cleanup. Cancelling a pending waiter removes it from the
subscriber registry (its log entry becomes `cancelled`); a subsequent settling
resolve or reject call settles normally: the cancelled waiter is not notified
(it stays `cancelled`), the call's own outcome is recorded as the settlement,
and every still-pending waiter is resumed with that outcome. -/
theorem cancellation_cleanup {T : Type} (es : List (Event T)) (id : Nat) (e : Event T)
    (r : Result T) (hse : settles e = some r)
    (hid : statusOf (run es) id = some .pending) :
    id ∉ (run (es ++ [Event.cancel id])).subscribers ∧
    statusOf (run (es ++ [Event.cancel id])) id = some .cancelled ∧
    statusOf (run (es ++ [Event.cancel id, e])) id = some .cancelled ∧
    (run (es ++ [Event.cancel id, e])).settlement = some r ∧
    (∀ j, j ≠ id → statusOf (run (es ++ [Event.cancel id])) j = some .pending →
      statusOf (run (es ++ [Event.cancel id, e])) j
        = some (.resumed (notify r))) := by
  obtain ⟨hnd, hsub, hres, hnone, hsett⟩ := inv_run es
  have hid' : (run es).waiters.get? id = some WStatus.pending := hid
  have hin : id ∈ (run es).subscribers := (hsub id).mpr hid'
  have hnone' : (run es).settlement = none := by
    cases hs : (run es).settlement with
    | none => rfl
    | some r0 =>
        have he := hsett (by rw [hs]; rfl)
        rw [he] at hin
        cases hin
  have h1 : run (es ++ [Event.cancel id]) = cancel (run es) id := by
    rw [run_append]
    rfl
  have h2 : run (es ++ [Event.cancel id, e])
      = settle (cancel (run es) id) r := by
    rw [run_append]
    cases e with
    | wait => simp [settles] at hse
    | cancel j => simp [settles] at hse
    | resolve v =>
        simp [settles] at hse
        subst hse
        rfl
    | reject err =>
        simp [settles] at hse
        subst hse
        rfl
  have hc := cancel_of_pending (run es) id hid'
  have hnotin : id ∉ (cancel (run es) id).subscribers := by
    rw [hc]
    dsimp only
    simp [hnd.mem_erase_iff]
  have hcanc : (cancel (run es) id).waiters.get? id = some WStatus.cancelled := by
    rw [hc]
    dsimp only
    rw [List.get?_set_eq, hid']
    rfl
  have hcsett : (cancel (run es) id).settlement = none := by
    rw [cancel_settlement]
    exact hnone'
  refine ⟨?_, ?_, ?_, ?_, ?_⟩
  · rw [h1]
    exact hnotin
  · rw [h1]
    exact hcanc
  · rw [h2]
    show (settle (cancel (run es) id) r).waiters.get? id = _
    rw [settle_get?_of_not_sub _ _ _ hnotin]
    exact hcanc
  · rw [h2, settle_of_none _ _ hcsett]
  · intro j hj hpj
    rw [h2]
    obtain ⟨hnd1, hsub1, _, _, _⟩ := inv_run (es ++ [Event.cancel id])
    have hpj' : (run (es ++ [Event.cancel id])).waiters.get? j = some WStatus.pending := hpj
    have hinj : j ∈ (run (es ++ [Event.cancel id])).subscribers := (hsub1 j).mpr hpj'
    rw [h1] at hinj hpj'
    show (settle (cancel (run es) id) r).waiters.get? j = _
    rw [settle_of_none _ _ hcsett]
    dsimp only
    rw [resumeFrom_get?, hpj']
    simp [hinj]

/- Witness for C4: of two pending waiters, cancelling the first and then
rejecting leaves it cancelled while the second is resumed with the failure;
the same holds for a subsequent resolve, which resumes it with the value. -/
theorem cancellation_cleanup_witness :
    statusOf (run (([Event.wait, Event.wait] : List (Event Nat))
        ++ [Event.cancel 0, Event.reject ⟨"x"⟩])) 0 = some WStatus.cancelled ∧
    statusOf (run (([Event.wait, Event.wait] : List (Event Nat))
        ++ [Event.cancel 0, Event.reject ⟨"x"⟩])) 1 = some (.resumed (.failure ⟨"x"⟩)) ∧
    statusOf (run (([Event.wait, Event.wait] : List (Event Nat))
        ++ [Event.cancel 0, Event.resolve 9])) 1 = some (.resumed (.success 9)) :=
  ⟨(cancellation_cleanup [Event.wait, Event.wait] 0 (Event.reject ⟨"x"⟩)
      (Result.Err ⟨"x"⟩) (by decide) (by decide)).2.2.1,
   (cancellation_cleanup [Event.wait, Event.wait] 0 (Event.reject ⟨"x"⟩)
      (Result.Err ⟨"x"⟩) (by decide) (by decide)).2.2.2.2 1 (by decide) (by decide),
   (cancellation_cleanup [Event.wait, Event.wait] 0 (Event.resolve 9)
      (Result.Ok 9) (by decide) (by decide)).2.2.2.2 1 (by decide) (by decide)⟩

/-- C5: resolve and reject never raise and never suspend: on every well-formed
broadcaster state (unsettled with any registry, or settled) and for every
argument they are total — embedded here as total Lean functions — and they
complete leaving a settled state with a drained registry that still satisfies
the state invariant. -/
theorem resolve_reject_total {T : Type} (s : BState T) (hi : Inv s) (v : T) (err : Error) :
    ((resolve s v).settlement.isSome = true ∧ (resolve s v).subscribers = [] ∧
      Inv (resolve s v)) ∧
    ((reject s err).settlement.isSome = true ∧ (reject s err).subscribers = [] ∧
      Inv (reject s err)) :=
  ⟨⟨settle_isSome s _, settle_subscribers s _ hi, inv_settle s _ hi⟩,
   ⟨settle_isSome s _, settle_subscribers s _ hi, inv_settle s _ hi⟩⟩

/- Witness for C5 on the state with one pending waiter. -/
theorem resolve_reject_total_witness :
    (resolve (run ([Event.wait] : List (Event Nat))) 3).settlement.isSome = true ∧
    (reject (run ([Event.wait] : List (Event Nat))) ⟨"e"⟩).subscribers = [] :=
  ⟨(resolve_reject_total (run ([Event.wait] : List (Event Nat)))
      (inv_run [Event.wait]) 3 ⟨"e"⟩).1.1,
   (resolve_reject_total (run ([Event.wait] : List (Event Nat)))
      (inv_run [Event.wait]) 3 ⟨"e"⟩).2.2.1⟩

/-- C6: Unknown-error normalization. When the failure arm carries no `error`
field, `notify` invokes the reject continuation with a generic
`Error("unknown error")` rather than a missing payload — so a waiter notified
of such a settlement is resumed with that generic failure — and
`ResultLikeToResult` maps a failure `ResultLike` without an `error` field to
`Err(new Error("unknown error"))`. -/
theorem unknown_error_normalization :
    (∀ (T : Type), notify (T := T) Result.ErrNoPayload
      = Outcome.failure ⟨"unknown error"⟩) ∧
    (∀ (T : Type), ResultLikeToResult (T := T) ResultLike.ErrNoField
      = Result.Err ⟨"unknown error"⟩) ∧
    statusOf (settle (wait (withResolvers Nat)) Result.ErrNoPayload) 0
      = some (.resumed (.failure ⟨"unknown error"⟩)) :=
  ⟨fun _ => rfl, fun _ => rfl, by decide⟩

/-- C7: Exactly-once observation and terminal-state exclusivity. The two
terminal waiter states are absorbing: a waiter resumed by settlement keeps
exactly that recorded outcome under every further event sequence (it is never
cancelled afterwards, and never resumed a second time with anything else), and
a cancelled waiter stays cancelled (it is never later resumed with an
outcome). -/
theorem terminal_state_exclusive {T : Type} (es more : List (Event T)) (id : Nat) :
    (∀ o : Outcome T, statusOf (run es) id = some (.resumed o) →
      statusOf (run (es ++ more)) id = some (.resumed o)) ∧
    (statusOf (run es) id = some .cancelled →
      statusOf (run (es ++ more)) id = some .cancelled) := by
  constructor
  · intro o h
    rw [run_append]
    exact foldl_preserve (fun s => s.waiters.get? id = some (.resumed o))
      (fun s e hi hp => step_status_stable s e id _ hi (fun hc => WStatus.noConfusion hc) hp)
      more (run es) (inv_run es) h
  · intro h
    rw [run_append]
    exact foldl_preserve (fun s => s.waiters.get? id = some .cancelled)
      (fun s e hi hp => step_status_stable s e id _ hi (fun hc => WStatus.noConfusion hc) hp)
      more (run es) (inv_run es) h

/- Witness for C7: a resumed waiter survives a later cancel attempt, and a
cancelled waiter survives a later resolve. -/
theorem terminal_state_exclusive_witness :
    statusOf (run (([Event.wait, Event.resolve 2] : List (Event Nat))
        ++ [Event.cancel 0])) 0 = some (.resumed (.success 2)) ∧
    statusOf (run (([Event.wait, Event.cancel 0] : List (Event Nat))
        ++ [Event.resolve 2])) 0 = some WStatus.cancelled :=
  ⟨(terminal_state_exclusive [Event.wait, Event.resolve 2] [Event.cancel 0] 0).1
      (.success 2) (by decide),
   (terminal_state_exclusive [Event.wait, Event.cancel 0] [Event.resolve 2] 0).2
      (by decide)⟩

/-- C8: Round-trip of the Result enhancement. `toFxResult` adds only the
`cata` field, preserving the `ok`/`value`/`error` fields unchanged, and
`toResult` strips exactly the `cata` field, so `toResult (toFxResult r) = r`
for every result object. -/
theorem toResult_toFxResult_roundtrip {T : Type} (r : ResultObj T) :
    toResult (toFxResult r) = r ∧
    (toFxResult r).ok = r.ok ∧
    (toFxResult r).value = r.value ∧
    (toFxResult r).error = r.error :=
  ⟨rfl, rfl, rfl, rfl⟩

/-- C9: `isJSONString` accepts exactly the strings that `JSON.parse` turns
into a non-null value of object type (object or array); every valid-JSON
scalar — number, boolean, string, `null` — yields `false`, and invalid JSON
yields `false` instead of throwing (the embedding is a total function). -/
theorem isJSONString_objects_only :
    (∀ s : String, isJSONString s = true ↔
      ∃ v, jsonParse s = .ok v ∧ jsTypeof v = "object" ∧ jsIsNull v = false) ∧
    isJSONString "42" = false ∧
    isJSONString "true" = false ∧
    isJSONString "\"hi\"" = false ∧
    isJSONString "null" = false ∧
    isJSONString "not json" = false ∧
    isJSONString "\x7b\"a\":1\x7d" = true ∧
    isJSONString "[1,2]" = true := by
  refine ⟨?_, by decide, by decide, by decide, by decide, by decide, by decide, by decide⟩
  intro s
  unfold isJSONString
  cases h : jsonParse s with
  | ok v => simp
  | error e => simp

/-- C10: `isResultDelphi` throws a `TypeError` on `null` and on `undefined`
(its second disjunct reads `arg.ok` without a null check), and so do
`isResultLikeOk` and `isResultLikeErr`, which call it first; every other
non-object argument — number, string, boolean — yields `false` without
throwing, for all three functions. -/
theorem isResultDelphi_throws_on_nullish :
    isResultDelphi JSVal.null = .error "TypeError" ∧
    isResultDelphi JSVal.undefined = .error "TypeError" ∧
    isResultLikeOk JSVal.null = .error "TypeError" ∧
    isResultLikeOk JSVal.undefined = .error "TypeError" ∧
    isResultLikeErr JSVal.null = .error "TypeError" ∧
    isResultLikeErr JSVal.undefined = .error "TypeError" ∧
    (∀ lit, isResultDelphi (JSVal.num lit) = .ok false) ∧
    (∀ s, isResultDelphi (JSVal.str s) = .ok false) ∧
    (∀ b, isResultDelphi (JSVal.bool b) = .ok false) ∧
    (∀ lit, isResultLikeOk (JSVal.num lit) = .ok false) ∧
    (∀ s, isResultLikeOk (JSVal.str s) = .ok false) ∧
    (∀ b, isResultLikeOk (JSVal.bool b) = .ok false) ∧
    (∀ lit, isResultLikeErr (JSVal.num lit) = .ok false) ∧
    (∀ s, isResultLikeErr (JSVal.str s) = .ok false) ∧
    (∀ b, isResultLikeErr (JSVal.bool b) = .ok false) :=
  ⟨rfl, rfl, rfl, rfl, rfl, rfl,
   fun _ => rfl, fun _ => rfl, fun _ => rfl,
   fun _ => rfl, fun _ => rfl, fun _ => rfl,
   fun _ => rfl, fun _ => rfl, fun _ => rfl⟩
